import Mathlib

/-!
Verification of the TermSnap batch rename tool
(`rename_nebula_to_termsnap.py`).

The tool walks a project tree and rewrites a fixed ordered list of
literal string replacements across files selected by extension globs.
We embed the string algorithm (Python `str.replace` folded over the
rule list), the per-file processing with its error containment, the
extension-based discovery, and the summary accounting of `main`.

Strings are modelled as `List Char`.  File-system effects are modelled
explicitly: a file carries the outcome of reading it (success with
decoded text, or an error) and an optional error raised on write, and
processing returns the changed flag, the error lines printed, whether a
write was attempted, and the resulting on-disk content.
-/

namespace RenameTool

/-- Text content, modelled as a list of characters. -/
abbrev Text := List Char

/-- One step machine for Python `str.replace` with a non-empty pattern:
scan left to right; at a position where `old` is a prefix, emit `nw` and
skip past the match; otherwise keep the character.  `fuel` bounds the
recursion; `fuel = s.length` always suffices since every step consumes
at least one character. -/
def pyReplaceAux (old nw : Text) : Nat → Text → Text
  | _, [] => []
  | 0, s => s
  | fuel + 1, c :: rest =>
    if old.isPrefixOf (c :: rest) then
      nw ++ pyReplaceAux old nw fuel (rest.drop (old.length - 1))
    else
      c :: pyReplaceAux old nw fuel rest

/-- Python `s.replace(old, nw)`: replace every (non-overlapping,
leftmost-first) occurrence of `old` in `s` by `nw`.  For the empty
pattern Python inserts `nw` at every gap, including both ends. -/
def pyReplace (s old nw : Text) : Text :=
  if old.isEmpty then nw ++ (s.map fun c => c :: nw).flatten
  else pyReplaceAux old nw s.length s

/-- A replacement rule: (search literal, replacement literal). -/
abbrev Rule := Text × Text

/-- The `for old, new in replacements: content = content.replace(old, new)`
loop of `replace_in_file`. -/
def applyLoop : List Rule → Text → Text
  | [], content => content
  | (old, nw) :: rest, content => applyLoop rest (pyReplace content old nw)

/-- The shipped `replacements` list of `main`, in source order. -/
def replacements : List Rule :=
  [ ("namespace Nebula".data, "namespace TermSnap".data),
    ("using Nebula".data, "using TermSnap".data),
    ("xmlns:local=\"clr-namespace:Nebula".data,
     "xmlns:local=\"clr-namespace:TermSnap".data),
    ("pack://application:,,,/Nebula;component".data,
     "pack://application:,,,/TermSnap;component".data),
    ("\"Nebula Terminal\"".data, "\"TermSnap\"".data),
    ("\x27Nebula Terminal\x27".data, "\x27TermSnap\x27".data),
    ("\"Nebula\"".data, "\"TermSnap\"".data),
    ("\x27Nebula\x27".data, "\x27TermSnap\x27".data),
    ("Nebula_MCP".data, "TermSnap_MCP".data),
    ("Nebula.".data, "TermSnap.".data),
    ("\\Nebula\\".data, "\\TermSnap\\".data),
    ("/Nebula/".data, "/TermSnap/".data),
    ("# Nebula".data, "# TermSnap".data),
    ("// Nebula".data, "// TermSnap".data) ]

/-- Outcome of `open(file, 'r', encoding='utf-8').read()`: the decoded
text, or the message of the exception raised while opening, reading or
decoding. -/
inductive ReadResult where
  | ok (content : Text)
  | err (msg : Text)
deriving DecidableEq, Repr

/-- A file as the tool sees it: whether it lives under the `src`
subdirectory, its name, the outcome reading it would have, the error an
attempted write would raise (if any), and its current on-disk content. -/
structure MFile where
  underSrc : Bool
  name : Text
  readRes : ReadResult
  writeErr : Option Text
  disk : Text
deriving DecidableEq, Repr

/-- Observable outcome of `replace_in_file` on one file: the returned
changed flag, whether a write was attempted, the content successfully
written (if any), the error lines printed (file name and error detail),
and the resulting on-disk content (`none` when a failed write may have
left the file partially written). -/
structure Outcome where
  changed : Bool
  writeAttempted : Bool
  written : Option Text
  errors : List (Text × Text)
  diskAfter : Option Text
deriving DecidableEq, Repr

/-- `replace_in_file(file_path, replacements)`: read, fold the rules
over the content, write back only when the result differs, catch any
exception, print one error line and return `False` on failure. -/
def processFile (rules : List Rule) (f : MFile) : Outcome :=
  match f.readRes with
  | ReadResult.err e => ⟨false, false, none, [(f.name, e)], some f.disk⟩
  | ReadResult.ok content =>
    let c := applyLoop rules content
    if c = content then ⟨false, false, none, [], some f.disk⟩
    else
      match f.writeErr with
      | some e => ⟨false, true, none, [(f.name, e)], none⟩
      | none => ⟨true, true, some c, [], some c⟩

/-- `pat` occurs somewhere in `s` as a contiguous substring. -/
def occursIn (pat : Text) : Text → Bool
  | [] => pat.isEmpty
  | c :: rest => pat.isPrefixOf (c :: rest) || occursIn pat rest

/-- A name matches the glob `*<ext>` exactly when `ext` is a suffix of
the name (fnmatch `*` matches any, possibly empty, sequence). -/
def sfx (ext name : Text) : Bool := ext.isSuffixOf name

/-- `SRC_DIR.rglob('*.cs')`: files under `src` whose name ends in `.cs`. -/
def csFiles (files : List MFile) : List MFile :=
  files.filter fun f => f.underSrc && sfx ".cs".data f.name

/-- `SRC_DIR.rglob('*.xaml')`. -/
def xamlFiles (files : List MFile) : List MFile :=
  files.filter fun f => f.underSrc && sfx ".xaml".data f.name

/-- `ROOT_DIR.rglob(pattern)` for one pattern: every file (the whole
tree is under the project root) whose name has the given suffix. -/
def filesMatching (ext : Text) (files : List MFile) : List MFile :=
  files.filter fun f => sfx ext f.name

/-- The `other_files` list: extend with the root-level matches of each
of the four patterns, in source order. -/
def otherFiles (files : List MFile) : List MFile :=
  filesMatching ".json".data files ++ filesMatching ".config".data files ++
    filesMatching ".xml".data files ++ filesMatching ".md".data files

/-- The per-pass counting loop: `if replace_in_file(f, rules): changed += 1`. -/
def countChanged (rules : List Rule) : List MFile → Nat
  | [] => 0
  | f :: rest =>
    (if (processFile rules f).changed then 1 else 0) + countChanged rules rest

/-- The per-file outcomes of one pass, in processing order. -/
def passOutcomes (rules : List Rule) : List MFile → List Outcome
  | [] => []
  | f :: rest => processFile rules f :: passOutcomes rules rest

/-- The printed summary block of `main`. -/
structure Summary where
  csChanged : Nat
  csTotal : Nat
  xamlChanged : Nat
  xamlTotal : Nat
  otherChanged : Nat
  otherTotal : Nat
  total : Nat
deriving DecidableEq, Repr

/-- `main()`: three passes (C#, XAML, other), each tallying changed
files over its discovered list, then the summary with the grand total. -/
def runMain (files : List MFile) : Summary :=
  let cs := csFiles files
  let xa := xamlFiles files
  let ot := otherFiles files
  let c1 := countChanged replacements cs
  let c2 := countChanged replacements xa
  let c3 := countChanged replacements ot
  ⟨c1, cs.length, c2, xa.length, c3, ot.length, c1 + c2 + c3⟩

/-- The root-level `readme.md` of the scoped-matching example, holding
the text `// Nebula`. -/
def readmeFile : MFile :=
  ⟨false, "readme.md".data, ReadResult.ok "// Nebula".data, none,
    "// Nebula".data⟩

/-- A file with the same content but extension `.txt`, matched by no
glob of the tool. -/
def txtFile : MFile :=
  ⟨false, "notes.txt".data, ReadResult.ok "// Nebula".data, none,
    "// Nebula".data⟩

/-- A markdown file with the same read content as `readmeFile` but a
different name and location, for the independence claim. -/
def readmeTwin : MFile :=
  ⟨true, "docs/notes.md".data, ReadResult.ok "// Nebula".data, none,
    "// Nebula".data⟩

/-- A file whose content contains none of the search literals. -/
def noopFile : MFile :=
  ⟨true, "Program.cs".data, ReadResult.ok "hello world".data, none,
    "hello world".data⟩

/-- A file whose read raises (for example, permission denied). -/
def badReadFile : MFile :=
  ⟨true, "App.cs".data, ReadResult.err "Permission denied".data, none,
    "old text".data⟩

theorem isPrefixOf_true_iff (p s : Text) :
    p.isPrefixOf s = true ↔ ∃ t, s = p ++ t := by
  induction p generalizing s with
  | nil => simp [List.isPrefixOf]
  | cons a as ih =>
    cases s with
    | nil => simp [List.isPrefixOf]
    | cons b bs =>
      simp only [List.isPrefixOf, Bool.and_eq_true, beq_iff_eq, ih,
        List.cons_append, List.cons.injEq]
      constructor
      · rintro ⟨rfl, t, rfl⟩
        exact ⟨t, rfl, rfl⟩
      · rintro ⟨t, rfl, rfl⟩
        exact ⟨rfl, t, rfl⟩

theorem isPrefixOf_append_right (p s t : Text) (h : p.isPrefixOf s = true) :
    p.isPrefixOf (s ++ t) = true := by
  obtain ⟨u, rfl⟩ := (isPrefixOf_true_iff p s).mp h
  exact (isPrefixOf_true_iff p _).mpr ⟨u ++ t, by simp⟩

theorem occursIn_nil_pat (s : Text) : occursIn [] s = true := by
  cases s <;> simp [occursIn, List.isPrefixOf]

theorem occursIn_append_left (a b t : Text) (h : occursIn a b = true) :
    occursIn a (b ++ t) = true := by
  induction b with
  | nil =>
    have ha : a = [] := by simpa [occursIn, List.isEmpty_iff] using h
    subst ha
    simpa using occursIn_nil_pat t
  | cons c rest ih =>
    simp only [occursIn, Bool.or_eq_true] at h
    rw [List.cons_append]
    simp only [occursIn, Bool.or_eq_true]
    cases h with
    | inl hp =>
      left
      have := isPrefixOf_append_right a (c :: rest) t hp
      simpa using this
    | inr ho => exact Or.inr (ih ho)

theorem occursIn_trans (a b s : Text) (h1 : occursIn a b = true)
    (h2 : occursIn b s = true) : occursIn a s = true := by
  induction s with
  | nil =>
    have hb : b = [] := by simpa [occursIn, List.isEmpty_iff] using h2
    subst hb
    exact h1
  | cons c rest ih =>
    have h2' := h2
    simp only [occursIn, Bool.or_eq_true] at h2'
    cases h2' with
    | inl hp =>
      obtain ⟨t, ht⟩ := (isPrefixOf_true_iff b (c :: rest)).mp hp
      rw [ht]
      exact occursIn_append_left a b t h1
    | inr ho =>
      simp only [occursIn, Bool.or_eq_true]
      exact Or.inr (ih ho)

theorem pyReplaceAux_id (old nw s : Text) (fuel : Nat)
    (h : occursIn old s = false) : pyReplaceAux old nw fuel s = s := by
  induction fuel generalizing s with
  | zero => cases s <;> simp [pyReplaceAux]
  | succ n ih =>
    cases s with
    | nil => simp [pyReplaceAux]
    | cons c rest =>
      simp only [occursIn, Bool.or_eq_false_iff] at h
      simp [pyReplaceAux, h.1, ih rest h.2]

theorem pyReplace_id (s old nw : Text) (h : occursIn old s = false) :
    pyReplace s old nw = s := by
  have hne : old.isEmpty = false := by
    cases old with
    | nil => rw [occursIn_nil_pat] at h; exact absurd h (by simp)
    | cons a as => rfl
  simp [pyReplace, hne, pyReplaceAux_id old nw s s.length h]

theorem applyLoop_id (rules : List Rule) (s : Text)
    (h : ∀ r ∈ rules, occursIn r.1 s = false) : applyLoop rules s = s := by
  induction rules with
  | nil => rfl
  | cons r rest ih =>
    obtain ⟨old, nw⟩ := r
    have h1 : occursIn old s = false := h (old, nw) (List.mem_cons_self _ _)
    simp only [applyLoop, pyReplace_id s old nw h1]
    exact ih fun r hr => h r (List.mem_cons_of_mem _ hr)

theorem applyLoop_eq_foldl (rules : List Rule) (s : Text) :
    applyLoop rules s = rules.foldl (fun acc r => pyReplace acc r.1 r.2) s := by
  induction rules generalizing s with
  | nil => rfl
  | cons r rest ih =>
    obtain ⟨old, nw⟩ := r
    simp only [applyLoop, List.foldl_cons]
    exact ih (pyReplace s old nw)

theorem countChanged_eq_filter (rules : List Rule) (fs : List MFile) :
    countChanged rules fs =
      (fs.filter fun f => (processFile rules f).changed).length := by
  induction fs with
  | nil => rfl
  | cons f rest ih =>
    cases hc : (processFile rules f).changed <;>
      simp [countChanged, List.filter_cons, hc, ih, Nat.add_comm]

theorem countChanged_append (rules : List Rule) (l1 l2 : List MFile) :
    countChanged rules (l1 ++ l2) =
      countChanged rules l1 + countChanged rules l2 := by
  induction l1 with
  | nil => simp [countChanged]
  | cons f rest ih => simp [countChanged, ih, Nat.add_assoc]

theorem replacements_nebula :
    ∀ r ∈ replacements, occursIn "Nebula".data r.1 = true := by decide

theorem sfx_head (ext name : Text) (c : Char) (rest : Text)
    (h1 : sfx ext name = true) (h2 : ext.reverse = c :: rest) :
    name.reverse.head? = some c := by
  simp only [sfx, List.isSuffixOf] at h1
  rw [h2] at h1
  obtain ⟨t, ht⟩ := (isPrefixOf_true_iff (c :: rest) name.reverse).mp h1
  rw [ht]
  rfl

theorem sfx_disjoint (e1 e2 name : Text) (c1 c2 : Char) (r1 r2 : Text)
    (h1 : e1.reverse = c1 :: r1) (h2 : e2.reverse = c2 :: r2) (hne : c1 ≠ c2)
    (hs : sfx e1 name = true) : sfx e2 name = false := by
  cases ho : sfx e2 name with
  | false => rfl
  | true =>
    have g1 := sfx_head e1 name c1 r1 hs h1
    have g2 := sfx_head e2 name c2 r2 ho h2
    rw [g1] at g2
    exact absurd (Option.some.inj g2) hne

/-- Claim C1: for every file processed by `replace_in_file`, the final
content is the left fold of exact literal substring replacement over the
ordered rule list applied to the full original text; each rule's output
feeds the next, and the final content is compared to the original to
decide the changed outcome (with a write attempted exactly when they
differ). -/
theorem replace_in_file_is_rule_fold (rules : List Rule) (f : MFile)
    (content : Text) (h1 : f.readRes = ReadResult.ok content)
    (h2 : f.writeErr = none) :
    applyLoop rules content =
        rules.foldl (fun acc r => pyReplace acc r.1 r.2) content
    ∧ ((processFile rules f).changed = true ↔ applyLoop rules content ≠ content)
    ∧ (applyLoop rules content = content →
        (processFile rules f).writeAttempted = false)
    ∧ (applyLoop rules content ≠ content →
        (processFile rules f).written = some (applyLoop rules content)) := by
  by_cases hc : applyLoop rules content = content
  · refine ⟨applyLoop_eq_foldl rules content, ?_, ?_, ?_⟩ <;>
      simp [processFile, h1, hc]
  · refine ⟨applyLoop_eq_foldl rules content, ?_, ?_, ?_⟩ <;>
      simp [processFile, h1, h2, hc]

theorem replace_in_file_is_rule_fold_instance :
    (processFile replacements readmeFile).changed = true ↔
      applyLoop replacements "// Nebula".data ≠ "// Nebula".data :=
  (replace_in_file_is_rule_fold replacements readmeFile "// Nebula".data
    rfl rfl).2.1

/-- Claim C2 counterexample: the shipped rule set is not idempotent.  On
the content `\Nebula\Nebula\` one application yields `\TermSnap\Nebula\`
(the middle backslash is consumed by the first, non-overlapping match),
and a second application changes that result again. -/
theorem ruleset_twice_differs_on_overlap :
    applyLoop replacements (applyLoop replacements "\\Nebula\\Nebula\\".data) ≠
      applyLoop replacements "\\Nebula\\Nebula\\".data := by decide

/-- Claim C2, amended: applying the rule set twice equals applying it
once for every content whose once-transformed result no longer contains
the literal `Nebula` (every search literal contains it); for such files
a second run returns changed = false. -/
theorem ruleset_idempotent_once_converted (content : Text)
    (h : occursIn "Nebula".data (applyLoop replacements content) = false) :
    applyLoop replacements (applyLoop replacements content) =
        applyLoop replacements content
    ∧ ∀ f : MFile,
        f.readRes = ReadResult.ok (applyLoop replacements content) →
          (processFile replacements f).changed = false := by
  have key : applyLoop replacements (applyLoop replacements content) =
      applyLoop replacements content := by
    apply applyLoop_id
    intro r hr
    cases ho : occursIn r.1 (applyLoop replacements content) with
    | false => rfl
    | true =>
      have hn := occursIn_trans "Nebula".data r.1
        (applyLoop replacements content) (replacements_nebula r hr) ho
      rw [h] at hn
      simp at hn
  refine ⟨key, ?_⟩
  intro f hf
  simp [processFile, hf, key]

theorem ruleset_idempotent_once_converted_instance :
    applyLoop replacements (applyLoop replacements "Nebula.Core".data) =
      applyLoop replacements "Nebula.Core".data :=
  (ruleset_idempotent_once_converted "Nebula.Core".data (by decide)).1

/-- Claim C3: for every file whose content contains none of the search
literals, the transformed content is identical to the original, no write
is attempted (the on-disk content is untouched), and the returned flag
is changed = false. -/
theorem noop_preservation (f : MFile) (content : Text)
    (h1 : f.readRes = ReadResult.ok content)
    (h2 : ∀ r ∈ replacements, occursIn r.1 content = false) :
    applyLoop replacements content = content
    ∧ (processFile replacements f).changed = false
    ∧ (processFile replacements f).writeAttempted = false
    ∧ (processFile replacements f).diskAfter = some f.disk := by
  have key := applyLoop_id replacements content h2
  refine ⟨key, ?_, ?_, ?_⟩ <;> simp [processFile, h1, key]

theorem noop_preservation_instance :
    (processFile replacements noopFile).changed = false
    ∧ (processFile replacements noopFile).diskAfter = some noopFile.disk :=
  ⟨(noop_preservation noopFile "hello world".data rfl (by decide)).2.1,
   (noop_preservation noopFile "hello world".data rfl (by decide)).2.2.2⟩

/-- Claim C4: every exception raised while reading, decoding, or writing
is caught by `replace_in_file`: exactly one error line carrying the file
name and the error detail is printed, changed = false is returned, and
the erroring file contributes nothing to the batch tally while the
remaining files are still processed. -/
theorem error_containment (rules : List Rule) (f : MFile) (e : Text)
    (h : f.readRes = ReadResult.err e ∨
      ∃ content, f.readRes = ReadResult.ok content ∧
        applyLoop rules content ≠ content ∧ f.writeErr = some e) :
    (processFile rules f).changed = false
    ∧ (processFile rules f).errors = [(f.name, e)]
    ∧ ∀ pre post : List MFile,
        countChanged rules (pre ++ f :: post) =
          countChanged rules pre + countChanged rules post := by
  have hmain : (processFile rules f).changed = false
      ∧ (processFile rules f).errors = [(f.name, e)] := by
    cases h with
    | inl he => simp [processFile, he]
    | inr hw =>
      obtain ⟨content, hr, hneq, hwe⟩ := hw
      simp [processFile, hr, hneq, hwe]
  refine ⟨hmain.1, hmain.2, ?_⟩
  intro pre post
  rw [countChanged_append]
  simp [countChanged, hmain.1]

theorem error_containment_instance :
    (processFile replacements badReadFile).changed = false
    ∧ (processFile replacements badReadFile).errors =
        [(badReadFile.name, "Permission denied".data)] :=
  ⟨(error_containment replacements badReadFile "Permission denied".data
      (Or.inl rfl)).1,
   (error_containment replacements badReadFile "Permission denied".data
      (Or.inl rfl)).2.1⟩

/-- Claim C5: the shipped ordered rule list maps the quoted input
`"Nebula Terminal"` to `"TermSnap"` — the longer full-name literal rule
fires before any shorter Nebula rule can act. -/
theorem order_sensitivity_full_name :
    applyLoop replacements "\"Nebula Terminal\"".data =
      "\"TermSnap\"".data := by decide

/-- Claim C6: the full rule set maps `namespace Nebula.Core { }` to
`namespace TermSnap.Core { }`; the `namespace Nebula` rule converts the
prefix first, after which the substring `Nebula.` no longer exists, so
the later `Nebula.` rule does not fire. -/
theorem end_to_end_namespace_example :
    applyLoop replacements "namespace Nebula.Core \x7b \x7d".data =
        "namespace TermSnap.Core \x7b \x7d".data
    ∧ occursIn "Nebula.".data
        (pyReplace "namespace Nebula.Core \x7b \x7d".data
          "namespace Nebula".data "namespace TermSnap".data) = false :=
  ⟨by decide, by decide⟩

/-- Claim C7: each pass discovers exactly the files matching its
extension globs (`*.cs` and `*.xaml` under the source subdirectory;
`*.json`, `*.config`, `*.xml`, `*.md` under the project root); a file
whose name ends in `.txt` is discovered by no pass, whatever its
content; and a root-level `readme.md` containing `// Nebula` is matched
by the other pass and changed. -/
theorem scoped_extension_matching :
    (∀ (files : List MFile) (f : MFile),
      f ∈ csFiles files ↔
        f ∈ files ∧ (f.underSrc && sfx ".cs".data f.name) = true)
    ∧ (∀ (files : List MFile) (f : MFile),
      f ∈ xamlFiles files ↔
        f ∈ files ∧ (f.underSrc && sfx ".xaml".data f.name) = true)
    ∧ (∀ (files : List MFile) (f : MFile),
      f ∈ otherFiles files ↔
        f ∈ files ∧
          (sfx ".json".data f.name || sfx ".config".data f.name ||
            sfx ".xml".data f.name || sfx ".md".data f.name) = true)
    ∧ (∀ (files : List MFile) (f : MFile), sfx ".txt".data f.name = true →
        f ∉ csFiles files ∧ f ∉ xamlFiles files ∧ f ∉ otherFiles files)
    ∧ readmeFile ∈ otherFiles [readmeFile]
    ∧ (processFile replacements readmeFile).changed = true
    ∧ (processFile replacements readmeFile).diskAfter =
        some "// TermSnap".data := by
  refine ⟨?_, ?_, ?_, ?_, by decide, by decide, by decide⟩
  · intro files f
    simp [csFiles, List.mem_filter]
  · intro files f
    simp [xamlFiles, List.mem_filter]
  · intro files f
    simp only [otherFiles, filesMatching, List.mem_append, List.mem_filter,
      Bool.or_eq_true]
    tauto
  · intro files f ht
    have hcs := sfx_disjoint ".txt".data ".cs".data f.name
      't' 's' "xt.".data "c.".data (by decide) (by decide) (by decide) ht
    have hxaml := sfx_disjoint ".txt".data ".xaml".data f.name
      't' 'l' "xt.".data "max.".data (by decide) (by decide) (by decide) ht
    have hjson := sfx_disjoint ".txt".data ".json".data f.name
      't' 'n' "xt.".data "osj.".data (by decide) (by decide) (by decide) ht
    have hconfig := sfx_disjoint ".txt".data ".config".data f.name
      't' 'g' "xt.".data "ifnoc.".data (by decide) (by decide) (by decide) ht
    have hxml := sfx_disjoint ".txt".data ".xml".data f.name
      't' 'l' "xt.".data "mx.".data (by decide) (by decide) (by decide) ht
    have hmd := sfx_disjoint ".txt".data ".md".data f.name
      't' 'd' "xt.".data "m.".data (by decide) (by decide) (by decide) ht
    refine ⟨?_, ?_, ?_⟩
    · simp [csFiles, List.mem_filter, hcs]
    · simp [xamlFiles, List.mem_filter, hxaml]
    · simp [otherFiles, filesMatching, List.mem_append, List.mem_filter,
        hjson, hconfig, hxml, hmd]

theorem scoped_extension_matching_instance :
    txtFile ∉ otherFiles [readmeFile, txtFile]
    ∧ (processFile replacements readmeFile).changed = true :=
  ⟨(scoped_extension_matching.2.2.2.1 [readmeFile, txtFile] txtFile
      (by decide)).2.2,
   scoped_extension_matching.2.2.2.2.2.1⟩

/-- Claim C8: after the three passes, each printed changed count equals
the number of that group's discovered files on which `replace_in_file`
returned true, each printed total equals the number of files discovered
for that group, and the printed Total equals the sum of the three
changed counts. -/
theorem summary_accounting (files : List MFile) :
    (runMain files).csChanged =
        ((csFiles files).filter fun f =>
          (processFile replacements f).changed).length
    ∧ (runMain files).xamlChanged =
        ((xamlFiles files).filter fun f =>
          (processFile replacements f).changed).length
    ∧ (runMain files).otherChanged =
        ((otherFiles files).filter fun f =>
          (processFile replacements f).changed).length
    ∧ (runMain files).csTotal = (csFiles files).length
    ∧ (runMain files).xamlTotal = (xamlFiles files).length
    ∧ (runMain files).otherTotal = (otherFiles files).length
    ∧ (runMain files).total =
        (runMain files).csChanged + (runMain files).xamlChanged +
          (runMain files).otherChanged := by
  refine ⟨?_, ?_, ?_, rfl, rfl, rfl, rfl⟩ <;>
    simp [runMain, countChanged_eq_filter]

/-- Claim C9: per-file independence and determinism: the outcome of one
file inside a pass is exactly `processFile` of that file, unaffected by
the surrounding files, and two files with equal read content and equal
write behaviour get an equal changed flag and written content, whatever
their names or locations. -/
theorem per_file_independence :
    (∀ (rules : List Rule) (pre post : List MFile) (f : MFile),
      passOutcomes rules (pre ++ f :: post) =
        passOutcomes rules pre ++
          processFile rules f :: passOutcomes rules post)
    ∧ (∀ (rules : List Rule) (f g : MFile),
      f.readRes = g.readRes → f.writeErr = g.writeErr →
        (processFile rules f).changed = (processFile rules g).changed
        ∧ (processFile rules f).written = (processFile rules g).written) := by
  constructor
  · intro rules pre post f
    induction pre with
    | nil => rfl
    | cons p rest ih => simp [passOutcomes, ih]
  · intro rules f g h1 h2
    cases hr : g.readRes with
    | err e => constructor <;> simp [processFile, h1, h2, hr]
    | ok content =>
      by_cases hc : applyLoop rules content = content
      · constructor <;> simp [processFile, h1, h2, hr, hc]
      · cases hw : g.writeErr with
        | none => constructor <;> simp [processFile, h1, h2, hr, hc, hw]
        | some e => constructor <;> simp [processFile, h1, h2, hr, hc, hw]

theorem per_file_independence_instance :
    (processFile replacements readmeFile).changed =
      (processFile replacements readmeTwin).changed :=
  (per_file_independence.2 replacements readmeFile readmeTwin rfl rfl).1

/-- Claim C10: when the exception is raised during open, read, or decode
— before any write is attempted — the on-disk content is unchanged: no
write is attempted and the file keeps its previous content, with
changed = false. -/
theorem read_error_atomicity (rules : List Rule) (f : MFile) (e : Text)
    (h : f.readRes = ReadResult.err e) :
    (processFile rules f).writeAttempted = false
    ∧ (processFile rules f).diskAfter = some f.disk
    ∧ (processFile rules f).changed = false := by
  refine ⟨?_, ?_, ?_⟩ <;> simp [processFile, h]

theorem read_error_atomicity_instance :
    (processFile replacements badReadFile).writeAttempted = false
    ∧ (processFile replacements badReadFile).diskAfter =
        some badReadFile.disk :=
  ⟨(read_error_atomicity replacements badReadFile
      "Permission denied".data rfl).1,
   (read_error_atomicity replacements badReadFile
      "Permission denied".data rfl).2.1⟩

end RenameTool
